import Mathlib

/-!
Verification of the `contain` sandbox core against its specification.

The definitions below are a shallow embedding of the Rust sources:
`src/filterscheme.rs` (admission predicate and path resolver),
`src/runner.rs` (config validation and fork/exec/wait choreography) and
`src/contain_thread.rs` (supervisor shutdown).  Machine integers are
modelled as `Nat`; Redox `syscall::Result` values as `Except Nat`
(the `Nat` being the errno); filesystem canonicalization, which is a host
call, is passed in as an explicit oracle `String → Option String`.
-/

namespace Contain

/-! Flag constants from the Redox `syscall`/`libredox` crates
(`O_RDONLY = 0x0001_0000`, upper 16 bits are flags, lower 16 the mode). -/

def O_RDONLY : Nat := 0x00010000

def O_WRONLY : Nat := 0x00020000

def O_RDWR : Nat := 0x00030000

def O_CREAT : Nat := 0x02000000

/-! Errno constants (Redox uses the Linux numbering). -/

def EPERM : Nat := 1

def ENOENT : Nat := 2

def EINVAL : Nat := 22

instance {ε α : Type} [DecidableEq ε] [DecidableEq α] : DecidableEq (Except ε α) := fun x y =>
  match x, y with
  | Except.ok a, Except.ok b =>
    if h : a = b then Decidable.isTrue (by rw [h])
    else Decidable.isFalse (fun he => h (Except.ok.inj he))
  | Except.error a, Except.error b =>
    if h : a = b then Decidable.isTrue (by rw [h])
    else Decidable.isFalse (fun he => h (Except.error.inj he))
  | Except.ok _, Except.error _ => Decidable.isFalse (fun he => Except.noConfusion he)
  | Except.error _, Except.ok _ => Decidable.isFalse (fun he => Except.noConfusion he)

/-- The policy record, from `ContainConfig` in `src/contain_config.rs`. -/
structure ContainConfig where
  root : Option String
  pass_schemes : List String
  sandbox_schemes : List String
  files : List String
  dirs : List String
  rofiles : List String
  rodirs : List String
deriving DecidableEq

/-! String helpers mirroring the Rust `str` methods used by the sources.
They operate on the underlying character lists so that every definition
reduces structurally. -/

/-- Rust `str::starts_with`. -/
def strStartsWith (s pre : String) : Bool :=
  pre.data.isPrefixOf s.data

/-- Rust `str::trim_start_matches('/')`: drop every leading slash. -/
def trimStartSlashes (s : String) : String :=
  String.mk (s.data.dropWhile (fun c => c == '/'))

/-- Rust `str::split_once(sep)` on character lists: split at the first
occurrence of `sep`, or `none` when `sep` does not occur. -/
def splitOnceChar (sep : Char) : List Char → Option (List Char × List Char)
  | [] => none
  | c :: rest =>
    if c == sep then some ([], rest)
    else
      match splitOnceChar sep rest with
      | none => none
      | some (a, b) => some (c :: a, b)

/-- The normalization prologue of `FilterScheme::is_allowed`
(`src/filterscheme.rs` lines 33-42): ensure there is a slash right after
the scheme name. -/
def normalizePath (path : String) : String :=
  match splitOnceChar ':' path.data with
  | some (scheme, subpath) =>
    if scheme.contains '/' then path
    else String.mk (scheme ++ [':', '/'] ++ subpath.dropWhile (fun c => c == '/'))
  | none => path

/-- `FilterScheme::is_allowed` (`src/filterscheme.rs` lines 31-59).
Returns `Ok(true)` when the path is admitted, `Err(EPERM)` otherwise. -/
def is_allowed (config : ContainConfig) (path : String) (flags : Nat) : Except Nat Bool :=
  let path := normalizePath path
  if (match config.root with
      | some r => strStartsWith path r
      | none => false) then
    Except.ok true
  else if config.files.any (fun m => path == m)
      || config.dirs.any (fun d => strStartsWith path d)
      || config.pass_schemes.any (fun d => strStartsWith path d)
      || ((flags &&& O_RDWR == 0 || flags &&& O_WRONLY == 0)
          && (config.rofiles.any (fun m => path == m)
              || config.rodirs.any (fun d => strStartsWith path d))) then
    Except.ok true
  else
    Except.error EPERM

/-- Write-bearing flags, as the spec words it: "any write or read-write
intent disqualifies the read-only lists". -/
def writeBearing (flags : Nat) : Prop :=
  flags &&& O_WRONLY ≠ 0 ∨ flags &&& O_RDWR = O_RDWR

instance (flags : Nat) : Decidable (writeBearing flags) := by
  unfold writeBearing
  exact inferInstance

/-- The admission predicate exactly as the specification states it
(spec §4.C): a canonical URI `U` is admitted iff the root matches, or an
exact `files` match, or a `dirs` prefix, or a `pass_schemes` prefix, or
the operation is not write-bearing and a read-only match applies. -/
def admitted (config : ContainConfig) (U : String) (flags : Nat) : Prop :=
  (∃ r, config.root = some r ∧ strStartsWith U r = true)
  ∨ (∃ f ∈ config.files, U = f)
  ∨ (∃ d ∈ config.dirs, strStartsWith U d = true)
  ∨ (∃ p ∈ config.pass_schemes, strStartsWith U p = true)
  ∨ (¬ writeBearing flags ∧
      ((∃ f ∈ config.rofiles, U = f) ∨ ∃ d ∈ config.rodirs, strStartsWith U d = true))

instance (config : ContainConfig) (U : String) (flags : Nat) :
    Decidable (admitted config U flags) := by
  unfold admitted
  exact inferInstance

/-! Bit arithmetic connecting the source's flag test
`flags & O_RDWR == 0 || flags & O_WRONLY == 0` with the spec's
"not write-bearing". -/

theorem land_rdwr_eq_zero {f : Nat} (h : f &&& O_RDWR = 0) : f &&& O_WRONLY = 0 := by
  have e : O_RDWR &&& O_WRONLY = O_WRONLY := by decide
  calc f &&& O_WRONLY = f &&& (O_RDWR &&& O_WRONLY) := by rw [e]
    _ = (f &&& O_RDWR) &&& O_WRONLY := (Nat.land_assoc f O_RDWR O_WRONLY).symm
    _ = 0 &&& O_WRONLY := by rw [h]
    _ = 0 := by simp

theorem land_rdwr_full {f : Nat} (h : f &&& O_RDWR = O_RDWR) : f &&& O_WRONLY ≠ 0 := by
  have e : O_RDWR &&& O_WRONLY = O_WRONLY := by decide
  have h2 : f &&& O_WRONLY = O_WRONLY := by
    calc f &&& O_WRONLY = f &&& (O_RDWR &&& O_WRONLY) := by rw [e]
      _ = (f &&& O_RDWR) &&& O_WRONLY := (Nat.land_assoc f O_RDWR O_WRONLY).symm
      _ = O_RDWR &&& O_WRONLY := by rw [h]
      _ = O_WRONLY := e
  rw [h2]
  decide

theorem not_writeBearing_iff {f : Nat} : ¬ writeBearing f ↔ f &&& O_WRONLY = 0 := by
  unfold writeBearing
  rw [not_or, not_ne_iff]
  constructor
  · exact fun h => h.1
  · exact fun h0 => ⟨h0, fun h2 => land_rdwr_full h2 h0⟩

theorem flagTest_prop {f : Nat} :
    (f &&& O_RDWR = 0 ∨ f &&& O_WRONLY = 0) ↔ ¬ writeBearing f := by
  rw [not_writeBearing_iff]
  constructor
  · rintro (h | h)
    · exact land_rdwr_eq_zero h
    · exact h
  · exact fun h => Or.inr h

theorem ite_ite_or (b1 b2 : Bool) (x y : Except Nat Bool) :
    (if b1 then x else if b2 then x else y) = if b1 || b2 then x else y := by
  cases b1 <;> simp

/-- The combined boolean condition of `is_allowed`, on an
already-normalized URI. -/
def allowCond (config : ContainConfig) (U : String) (flags : Nat) : Bool :=
  (match config.root with
   | some r => strStartsWith U r
   | none => false)
  || (config.files.any (fun m => U == m)
      || config.dirs.any (fun d => strStartsWith U d)
      || config.pass_schemes.any (fun d => strStartsWith U d)
      || ((flags &&& O_RDWR == 0 || flags &&& O_WRONLY == 0)
          && (config.rofiles.any (fun m => U == m)
              || config.rodirs.any (fun d => strStartsWith U d))))

theorem is_allowed_eq (config : ContainConfig) (path : String) (flags : Nat) :
    is_allowed config path flags =
      if allowCond config (normalizePath path) flags then Except.ok true
      else Except.error EPERM := by
  unfold is_allowed allowCond
  exact ite_ite_or _ _ _ _

theorem allowCond_iff (config : ContainConfig) (U : String) (flags : Nat) :
    allowCond config U flags = true ↔ admitted config U flags := by
  unfold allowCond admitted
  have hroot : ((match config.root with
      | some r => strStartsWith U r
      | none => false) = true)
      ↔ (∃ r, config.root = some r ∧ strStartsWith U r = true) := by
    cases config.root <;> simp
  simp only [Bool.or_eq_true, Bool.and_eq_true, List.any_eq_true, beq_iff_eq]
  rw [hroot, flagTest_prop, or_assoc, or_assoc]

/-- C1: the `FilterScheme` admission check `is_allowed` admits a URI
(after normalizing it to the form `s:/path`) if and only if the spec's
admission predicate (root prefix, exact `files` match, `dirs` prefix,
`pass_schemes` prefix, or — when the operation is not write-bearing — a
`rofiles`/`rodirs` match) holds of the normalized URI, and otherwise
fails with `PermissionDenied` (`EPERM`). -/
theorem c1_admission_predicate (config : ContainConfig) (path : String) (flags : Nat) :
    (is_allowed config path flags = Except.ok true
       ↔ admitted config (normalizePath path) flags)
    ∧ (is_allowed config path flags = Except.error EPERM
       ↔ ¬ admitted config (normalizePath path) flags) := by
  rw [is_allowed_eq]
  by_cases hadm : admitted config (normalizePath path) flags
  · have hc : allowCond config (normalizePath path) flags = true :=
      (allowCond_iff config (normalizePath path) flags).mpr hadm
    rw [hc]
    simp [hadm]
  · have hc : allowCond config (normalizePath path) flags = false := by
      cases h : allowCond config (normalizePath path) flags
      · rfl
      · exact absurd ((allowCond_iff config (normalizePath path) flags).mp h) hadm
    rw [hc]
    simp [hadm]

/-! The path resolver (`FilterScheme::resolve`, `src/filterscheme.rs`
lines 81-123).  Filesystem canonicalization (`Path::canonicalize`) is a
host call; it enters the model as an oracle `canon : String → Option
String` (`none` models an `Err` from the host). -/

/-- Substring test on character lists: Rust `str::contains` with a
string pattern. -/
def containsSeq (pat : List Char) : List Char → Bool
  | [] => pat.isEmpty
  | c :: rest => pat.isPrefixOf (c :: rest) || containsSeq pat rest

/-- Suffix test on character lists: Rust `str::ends_with`. -/
def endsWithSeq (pat : List Char) : List Char → Bool
  | [] => pat.isEmpty
  | c :: rest => (pat == c :: rest) || endsWithSeq pat rest

/-- Rust `str::contains` with a string pattern. -/
def strContains (s pat : String) : Bool :=
  containsSeq pat.data s.data

/-- Rust `str::ends_with`. -/
def strEndsWith (s pat : String) : Bool :=
  endsWithSeq pat.data s.data

/-- Split a character list at every occurrence of `sep` (used to state
"contains `..` as a path segment"). -/
def splitOnChar (sep : Char) : List Char → List (List Char)
  | [] => [[]]
  | c :: rest =>
    let ss := splitOnChar sep rest
    if c == sep then [] :: ss
    else (c :: ss.headD []) :: ss.tail

theorem splitOnChar_ne_nil (sep : Char) (l : List Char) : splitOnChar sep l ≠ [] := by
  cases l with
  | nil => simp [splitOnChar]
  | cons c rest =>
    unfold splitOnChar
    by_cases h : (c == sep) = true <;> simp [h]

theorem splitOnChar_head (sep : Char) :
    ∀ (l : List Char) (h : List Char) (t : List (List Char)),
      splitOnChar sep l = h :: t →
      ∃ r, l = h ++ r ∧ (r = [] ∨ ∃ r2, r = sep :: r2) := by
  intro l
  induction l with
  | nil =>
    intro h t he
    simp only [splitOnChar, List.cons.injEq] at he
    exact ⟨[], by simp [← he.1], Or.inl rfl⟩
  | cons c rest ih =>
    intro h t he
    rcases hss : splitOnChar sep rest with _ | ⟨h2, t2⟩
    · exact absurd hss (splitOnChar_ne_nil sep rest)
    · unfold splitOnChar at he
      rw [hss] at he
      by_cases hc : (c == sep) = true
      · simp only [hc, if_true, List.cons.injEq] at he
        refine ⟨c :: rest, by simp [← he.1], Or.inr ⟨rest, ?_⟩⟩
        rw [(beq_iff_eq.mp hc)]
      · simp only [hc, Bool.false_eq_true, if_false, List.headD_cons, List.tail_cons,
          List.cons.injEq] at he
        rcases ih h2 t2 hss with ⟨r, hr, htail⟩
        refine ⟨r, ?_, htail⟩
        rw [← he.1]
        simp [hr]

theorem dotdot_segment_lexical (l : List Char)
    (h : ['.', '.'] ∈ splitOnChar '/' l) :
    containsSeq ['.', '.', '/'] l = true ∨ endsWithSeq ['.', '.'] l = true := by
  induction l with
  | nil => simp [splitOnChar] at h
  | cons c rest ih =>
    rcases hss : splitOnChar '/' rest with _ | ⟨h2, t2⟩
    · exact absurd hss (splitOnChar_ne_nil '/' rest)
    · unfold splitOnChar at h
      rw [hss] at h
      by_cases hc : (c == '/') = true
      · simp only [hc, if_true, List.mem_cons] at h
        rcases h with h | h
        · simp at h
        · have hmem : ['.', '.'] ∈ splitOnChar '/' rest := by
            rw [hss]; exact List.mem_cons.mpr h
          rcases ih hmem with hx | hx
          · exact Or.inl (by unfold containsSeq; rw [hx]; simp)
          · exact Or.inr (by unfold endsWithSeq; rw [hx]; simp)
      · simp only [hc, Bool.false_eq_true, if_false, List.headD_cons, List.tail_cons,
          List.mem_cons] at h
        rcases h with h | h
        · have hcdot : c = '.' ∧ h2 = ['.'] := by
            have h1 := h.symm
            simp only [List.cons.injEq] at h1
            exact h1
          rcases splitOnChar_head '/' rest h2 t2 hss with ⟨r, hr, htail⟩
          rcases htail with htail | ⟨r2, htail⟩
          · subst htail
            rw [hcdot.2] at hr
            simp only [List.append_nil] at hr
            right
            rw [hcdot.1, hr]
            decide
          · subst htail
            rw [hcdot.2] at hr
            left
            rw [hcdot.1, hr]
            simp [containsSeq, List.isPrefixOf]
        · have hmem : ['.', '.'] ∈ splitOnChar '/' rest := by
            rw [hss]; exact List.mem_cons.mpr (Or.inr h)
          rcases ih hmem with hx | hx
          · exact Or.inl (by unfold containsSeq; rw [hx]; simp)
          · exact Or.inr (by unfold endsWithSeq; rw [hx]; simp)

/-- `Result::is_err`. -/
def isErr {α : Type} (e : Except Nat α) : Bool :=
  match e with
  | Except.error _ => true
  | Except.ok _ => false

/-- `FilterScheme::real_path` (`src/filterscheme.rs` lines 65-76): add
the scheme name; when the result does not pass the filter and a chroot
root is configured, prefix with the root instead. -/
def real_path (config : ContainConfig) (scheme path : String) (flags : Nat) : String :=
  let full_path := scheme ++ ":/" ++ trimStartSlashes path
  if isErr (is_allowed config full_path flags) && config.root.isSome then
    (config.root.getD "") ++ "/" ++ trimStartSlashes path
  else
    full_path

/-- Strip, from the reversed character list of a path, the trailing
junk that Rust's `std::path::Components` back-parser skips: separator
runs and `.` chunks — except a leading `.` (Rust's `Component::CurDir`,
kept when it is the very start of the path).  A `..` chunk is a real
component (`ParentDir`) and is kept. -/
def stripJunkRev : List Char → List Char
  | [] => []
  | c :: rest =>
    if c == '/' then stripJunkRev rest
    else if c == '.' then
      match rest with
      | [] => ['.']
      | r2 :: rest2 =>
        if r2 == '/' then stripJunkRev (r2 :: rest2)
        else c :: r2 :: rest2
    else c :: rest

/-- Rust `Path::file_name`: the last component, skipping trailing
separators and `.` chunks; `none` when the last component is not a
normal one (empty path, root, `.`, `..`). -/
def pathFileName (p : String) : Option String :=
  let t := stripJunkRev p.data.reverse
  let name := (t.takeWhile (fun c => !(c == '/'))).reverse
  if name.isEmpty || name == ['.'] || name == ['.', '.'] then none
  else some (String.mk name)

/-- Rust `Path::parent`: the path minus its last component, as the
prefix slice of the original string with trailing separators and `.`
chunks removed (so internal `./` and `//` runs are preserved, exactly as
`Components::as_path` yields them); `none` for an empty path or a path
that is only a root. -/
def pathParent (p : String) : Option String :=
  let t := stripJunkRev p.data.reverse
  match t with
  | [] => none
  | _ =>
    let name := t.takeWhile (fun c => !(c == '/'))
    let rest := t.drop name.length
    if rest.isEmpty then some ""
    else
      let pre := stripJunkRev rest
      if pre.isEmpty then some "/"
      else some (String.mk pre.reverse)

/-- Rust `PathBuf::push` with a relative file name. -/
def pushPath (dir file : String) : String :=
  if dir.data.isEmpty then file
  else if strEndsWith dir "/" then dir ++ file
  else dir ++ "/" ++ file

/-- The non-creation arm of `FilterScheme::resolve` (lines 95-101):
canonicalize the whole path, then re-check admission with the caller's
flags. -/
def resolveNonCreate (config : ContainConfig) (canon : String → Option String)
    (real : String) (flags : Nat) : Except Nat String :=
  match canon real with
  | none => Except.error EPERM
  | some canon_path =>
    match is_allowed config canon_path flags with
    | Except.error e => Except.error e
    | Except.ok _ => Except.ok canon_path

/-- The creation arm of `FilterScheme::resolve` (lines 102-121):
canonicalize the parent directory only, check it with `O_RDWR`, then
re-append the file name. -/
def resolveCreate (config : ContainConfig) (canon : String → Option String)
    (real : String) : Except Nat String :=
  match pathFileName real with
  | none => Except.error EINVAL
  | some filename =>
    match pathParent real with
    | none => Except.error ENOENT
    | some parent =>
      match canon parent with
      | none => Except.error ENOENT
      | some canon_dir =>
        match is_allowed config canon_dir O_RDWR with
        | Except.error e => Except.error e
        | Except.ok _ => Except.ok (pushPath canon_dir filename)

/-- `FilterScheme::resolve` (`src/filterscheme.rs` lines 81-123). -/
def resolve (config : ContainConfig) (scheme : String) (canon : String → Option String)
    (path : String) (flags : Nat) : Except Nat String :=
  if strContains path "../" || strEndsWith path ".." then
    Except.error EINVAL
  else if (match config.root with
           | some r => strStartsWith (scheme ++ ":/" ++ trimStartSlashes path) r
           | none => false) then
    Except.error EINVAL
  else if flags &&& O_CREAT == 0 then
    resolveNonCreate config canon (real_path config scheme path flags) flags
  else
    resolveCreate config canon (real_path config scheme path flags)

/-- C2: a request (open, rmdir, unlink all call `resolve`) whose path
contains `..` as a path segment or ends with `..` is denied with
`InvalidArgument` (`EINVAL`), regardless of the policy contents; rmdir
and unlink pass `flags = 0`, open passes its own flags, so the theorem
quantifies over both the policy and the flags. -/
theorem c2_dotdot_denied (config : ContainConfig) (scheme : String)
    (canon : String → Option String) (path : String) (flags : Nat)
    (h : ['.', '.'] ∈ splitOnChar '/' path.data ∨ strEndsWith path ".." = true) :
    resolve config scheme canon path flags = Except.error EINVAL := by
  have hguard : (strContains path "../" || strEndsWith path "..") = true := by
    rw [Bool.or_eq_true]
    rcases h with h | h
    · rcases dotdot_segment_lexical path.data h with h2 | h2
      · exact Or.inl h2
      · exact Or.inr h2
    · exact Or.inr h
  unfold resolve
  rw [hguard]
  simp

theorem c2_dotdot_denied_witness :
    (['.', '.'] ∈ splitOnChar '/' ("a/../b" : String).data
       ∨ strEndsWith "a/../b" ".." = true)
    ∧ resolve ⟨none, [], ["file"], [], ["file:/"], [], []⟩ "file" (fun s => some s)
        "a/../b" 0 = Except.error EINVAL :=
  ⟨Or.inl (by decide),
   c2_dotdot_denied ⟨none, [], ["file"], [], ["file:/"], [], []⟩ "file" (fun s => some s)
     "a/../b" 0 (Or.inl (by decide))⟩

theorem is_allowed_ok_iff (config : ContainConfig) (path : String) (flags : Nat) :
    is_allowed config path flags = Except.ok true
      ↔ admitted config (normalizePath path) flags := by
  rw [is_allowed_eq]
  rcases hc : allowCond config (normalizePath path) flags
  · rw [← allowCond_iff, hc]
    simp
  · rw [← allowCond_iff, hc]
    simp

theorem is_allowed_err_iff (config : ContainConfig) (path : String) (flags : Nat) :
    is_allowed config path flags = Except.error EPERM
      ↔ ¬ admitted config (normalizePath path) flags := by
  rw [is_allowed_eq, ← allowCond_iff]
  rcases hc : allowCond config (normalizePath path) flags <;> simp

/-- C3: a write-bearing open against a URI matched (at most) by the
read-only lists — and by none of root, `files`, `dirs`, `pass_schemes` —
is denied by the admission predicate with `EPERM`. -/
theorem c3_writebearing_ro_denied (config : ContainConfig) (path : String) (flags : Nat)
    (hwb : writeBearing flags)
    (hroot : ∀ r, config.root = some r → strStartsWith (normalizePath path) r = false)
    (hfiles : ∀ f ∈ config.files, normalizePath path ≠ f)
    (hdirs : ∀ d ∈ config.dirs, strStartsWith (normalizePath path) d = false)
    (hpass : ∀ p ∈ config.pass_schemes, strStartsWith (normalizePath path) p = false) :
    is_allowed config path flags = Except.error EPERM := by
  rw [is_allowed_err_iff]
  rintro (⟨r, hr, hs⟩ | ⟨f, hf, he⟩ | ⟨d, hd, hs⟩ | ⟨p, hp, hs⟩ | ⟨hnwb, _⟩)
  · rw [hroot r hr] at hs
    exact absurd hs (by simp)
  · exact hfiles f hf he
  · rw [hdirs d hd] at hs
    exact absurd hs (by simp)
  · rw [hpass p hp] at hs
    exact absurd hs (by simp)
  · exact hnwb hwb

theorem c3_writebearing_ro_denied_witness :
    writeBearing O_WRONLY
    ∧ ("file:/etc/passwd" ∈
        (⟨none, [], ["file"], [], [], ["file:/etc/passwd"], ["file:/bin"]⟩
          : ContainConfig).rofiles)
    ∧ is_allowed ⟨none, [], ["file"], [], [], ["file:/etc/passwd"], ["file:/bin"]⟩
        "file:/etc/passwd" O_WRONLY = Except.error EPERM :=
  ⟨by decide, by decide,
   c3_writebearing_ro_denied
     ⟨none, [], ["file"], [], [], ["file:/etc/passwd"], ["file:/bin"]⟩
     "file:/etc/passwd" O_WRONLY (by decide)
     (fun r h => nomatch h) (by decide) (by decide) (by decide)⟩

/-- The admission predicate under read-write rules: the spec's predicate
with the read-only clause removed (a write-bearing check never consults
`rofiles`/`rodirs`). -/
def admittedRW (config : ContainConfig) (U : String) : Prop :=
  (∃ r, config.root = some r ∧ strStartsWith U r = true)
  ∨ (∃ f ∈ config.files, U = f)
  ∨ (∃ d ∈ config.dirs, strStartsWith U d = true)
  ∨ (∃ p ∈ config.pass_schemes, strStartsWith U p = true)

instance (config : ContainConfig) (U : String) : Decidable (admittedRW config U) := by
  unfold admittedRW
  exact inferInstance

theorem admitted_rdwr_iff (config : ContainConfig) (U : String) :
    admitted config U O_RDWR ↔ admittedRW config U := by
  unfold admitted admittedRW
  have hwb : writeBearing O_RDWR := by decide
  constructor
  · rintro (h | h | h | h | ⟨hn, _⟩)
    · exact Or.inl h
    · exact Or.inr (Or.inl h)
    · exact Or.inr (Or.inr (Or.inl h))
    · exact Or.inr (Or.inr (Or.inr h))
    · exact absurd hwb hn
  · rintro (h | h | h | h)
    · exact Or.inl h
    · exact Or.inr (Or.inl h)
    · exact Or.inr (Or.inr (Or.inl h))
    · exact Or.inr (Or.inr (Or.inr (Or.inl h)))

/-- C5: for a creation-mode request (`O_CREAT` set) that passes the
lexical `..` guard and the root re-entry guard, the resolver splits the
(possibly chroot-rewritten) URI `real_path` into parent directory and
final component, canonicalizes the parent only, admits the canonical
directory under read-write rules (`O_RDWR`, so the read-only lists do
not admit it: `admittedRW` has no read-only clause), and on admission
returns the canonical directory rejoined with the final component; the
returned file itself is not consulted against the policy.  (The
admission check normalizes its argument, hence `normalizePath`.) -/
theorem c5_create_mode (config : ContainConfig) (scheme : String)
    (canon : String → Option String) (path : String) (flags : Nat) (v : String)
    (hcreat : flags &&& O_CREAT ≠ 0)
    (hdd : (strContains path "../" || strEndsWith path "..") = false)
    (hroot : ∀ r, config.root = some r →
      strStartsWith (scheme ++ ":/" ++ trimStartSlashes path) r = false) :
    resolve config scheme canon path flags = Except.ok v ↔
      (∃ fn parent canon_dir,
        pathFileName (real_path config scheme path flags) = some fn
        ∧ pathParent (real_path config scheme path flags) = some parent
        ∧ canon parent = some canon_dir
        ∧ admittedRW config (normalizePath canon_dir)
        ∧ v = pushPath canon_dir fn) := by
  have hguard2 : (match config.root with
      | some r => strStartsWith (scheme ++ ":/" ++ trimStartSlashes path) r
      | none => false) = false := by
    cases hr : config.root with
    | none => rfl
    | some r => exact hroot r hr
  have hcreatb : (flags &&& O_CREAT == 0) = false := by
    simp [hcreat]
  unfold resolve
  rw [hdd, hguard2, hcreatb]
  simp only [Bool.false_eq_true, if_false]
  unfold resolveCreate
  rcases hfn : pathFileName (real_path config scheme path flags) with _ | fn
  · simp [hfn]
  · rcases hpar : pathParent (real_path config scheme path flags) with _ | parent
    · simp [hfn, hpar]
    · rcases hcan : canon parent with _ | canon_dir
      · simp [hfn, hpar, hcan]
      · simp only [hfn, hpar, hcan]
        rw [is_allowed_eq]
        rcases hac : allowCond config (normalizePath canon_dir) O_RDWR
        · have hnadm : ¬ admittedRW config (normalizePath canon_dir) := by
            rw [← admitted_rdwr_iff, ← allowCond_iff, hac]
            simp
          simp [hcan, hnadm]
        · have hadm : admittedRW config (normalizePath canon_dir) :=
            (admitted_rdwr_iff config (normalizePath canon_dir)).mp
              ((allowCond_iff config (normalizePath canon_dir) O_RDWR).mp hac)
          simp only [eq_self_iff_true, if_true]
          constructor
          · intro h
            refine ⟨fn, parent, canon_dir, rfl, rfl, hcan, hadm, ?_⟩
            have h2 : pushPath canon_dir fn = v := by injection h
            exact h2.symm
          · rintro ⟨fn2, parent2, canon_dir2, h1, h2, h3, _, h5⟩
            have e1 : fn2 = fn := by injection h1 with e; exact e.symm
            have e2 : parent2 = parent := by injection h2 with e; exact e.symm
            rw [e2, hcan] at h3
            have e3 : canon_dir2 = canon_dir := by injection h3 with e; exact e.symm
            rw [h5, e1, e3]

theorem c5_create_mode_witness :
    ((O_CREAT ||| O_WRONLY) &&& O_CREAT ≠ 0)
    ∧ resolve ⟨none, [], ["file"], [], ["file:/tmp"], [], []⟩ "file"
        (fun s => if s == "file:/tmp" then some "file:/tmp" else none)
        "/tmp/newfile" (O_CREAT ||| O_WRONLY) = Except.ok "file:/tmp/newfile"
    ∧ ("file:/tmp/newfile" ∉ (⟨none, [], ["file"], [], ["file:/tmp"], [], []⟩
        : ContainConfig).files) :=
  ⟨by decide,
   (c5_create_mode ⟨none, [], ["file"], [], ["file:/tmp"], [], []⟩ "file"
      (fun s => if s == "file:/tmp" then some "file:/tmp" else none)
      "/tmp/newfile" (O_CREAT ||| O_WRONLY) "file:/tmp/newfile"
      (by decide) (by decide) (fun r h => nomatch h)).mpr
     ⟨"newfile", "file:/tmp", "file:/tmp", by decide, by decide, by decide,
      by decide, by decide⟩,
   by decide⟩

/-! Policy validation (`validate_config`, `src/runner.rs` lines 77-148).
The live host scheme snapshot (`list_schemes`) is a host call; it enters
the model as the parameter `schemes`.  Rust's stable `Vec::sort` on
strings is byte-lexicographic; `strLe` below is the same order stated
structurally on the character lists (UTF-8 byte order and code-point
order agree), and `List.insertionSort` computes the same sorted list
because the order is total and antisymmetric. -/

def leChars : List Char → List Char → Bool
  | [], _ => true
  | _ :: _, [] => false
  | a :: as, b :: bs => if a = b then leChars as bs else decide (a < b)

def strLe (a b : String) : Bool :=
  leChars a.data b.data

def strLeP (a b : String) : Prop :=
  strLe a b = true

instance : DecidableRel strLeP := fun a b => by
  unfold strLeP
  infer_instance

theorem leChars_total : ∀ a b : List Char, leChars a b = true ∨ leChars b a = true := by
  intro a
  induction a with
  | nil => intro b; exact Or.inl rfl
  | cons x as ih =>
    intro b
    cases b with
    | nil => exact Or.inr rfl
    | cons y bs =>
      by_cases hxy : x = y
      · subst hxy
        rcases ih bs with h | h
        · exact Or.inl (by simp [leChars, h])
        · exact Or.inr (by simp [leChars, h])
      · rcases lt_or_gt_of_ne hxy with h | h
        · exact Or.inl (by simp [leChars, hxy, h])
        · exact Or.inr (by simp [leChars, Ne.symm hxy, h])

theorem leChars_trans :
    ∀ a b c : List Char, leChars a b = true → leChars b c = true → leChars a c = true := by
  intro a
  induction a with
  | nil => intro b c _ _; rfl
  | cons x as ih =>
    intro b c hab hbc
    cases b with
    | nil => simp [leChars] at hab
    | cons y bs =>
      cases c with
      | nil => simp [leChars] at hbc
      | cons z cs =>
        by_cases hxy : x = y <;> by_cases hyz : y = z
        · subst hxy; subst hyz
          simp only [leChars, if_pos rfl] at hab hbc ⊢
          exact ih bs cs hab hbc
        · subst hxy
          simp only [leChars, if_neg hyz, decide_eq_true_eq] at hbc
          simp only [leChars, if_neg hyz, decide_eq_true_eq]
          exact hbc
        · subst hyz
          simp only [leChars, if_neg hxy, decide_eq_true_eq] at hab
          simp only [leChars, if_neg hxy, decide_eq_true_eq]
          exact hab
        · simp only [leChars, if_neg hxy, decide_eq_true_eq] at hab
          simp only [leChars, if_neg hyz, decide_eq_true_eq] at hbc
          have hxz : x < z := lt_trans hab hbc
          simp only [leChars, if_neg (ne_of_lt hxz), decide_eq_true_eq]
          exact hxz

theorem leChars_antisymm :
    ∀ a b : List Char, leChars a b = true → leChars b a = true → a = b := by
  intro a
  induction a with
  | nil =>
    intro b _ hba
    cases b with
    | nil => rfl
    | cons y bs => simp [leChars] at hba
  | cons x as ih =>
    intro b hab hba
    cases b with
    | nil => simp [leChars] at hab
    | cons y bs =>
      by_cases hxy : x = y
      · subst hxy
        simp only [leChars, if_pos rfl] at hab hba
        rw [ih bs hab hba]
      · simp only [leChars, if_neg hxy, decide_eq_true_eq] at hab
        simp only [leChars, if_neg (Ne.symm hxy), decide_eq_true_eq] at hba
        exact absurd hba (lt_asymm hab)

instance : IsTotal String strLeP :=
  ⟨fun a b => leChars_total a.data b.data⟩

instance : IsTrans String strLeP :=
  ⟨fun a b c => leChars_trans a.data b.data c.data⟩

theorem strLeP_antisymm {a b : String} (hab : strLeP a b) (hba : strLeP b a) : a = b := by
  cases a
  cases b
  exact congrArg String.mk (leChars_antisymm _ _ hab hba)

example : strLe "a" "b" = true := by decide

example : List.insertionSort strLeP ["b", "a"] = ["a", "b"] := by decide

example : List.Sorted strLeP ["a", "b"] := by decide

def dedupAdj : List String → List String
  | [] => []
  | [a] => [a]
  | a :: b :: rest => if a == b then dedupAdj (b :: rest) else a :: dedupAdj (b :: rest)

theorem mem_dedupAdj : ∀ (l : List String) (x : String), x ∈ dedupAdj l ↔ x ∈ l := by
  intro l
  induction l with
  | nil => intro x; simp [dedupAdj]
  | cons a t ih =>
    intro x
    cases t with
    | nil => simp [dedupAdj]
    | cons b rest =>
      by_cases hab : (a == b) = true
      · have he : a = b := beq_iff_eq.mp hab
        simp only [dedupAdj, hab, if_true, ih x, List.mem_cons]
        subst he
        tauto
      · simp only [dedupAdj, hab, Bool.false_eq_true, if_false, List.mem_cons, ih x]

theorem dedupAdj_sublist : ∀ l : List String, List.Sublist (dedupAdj l) l := by
  intro l
  induction l with
  | nil => simp [dedupAdj]
  | cons a t ih =>
    cases t with
    | nil => simp [dedupAdj]
    | cons b rest =>
      by_cases hab : (a == b) = true
      · simp only [dedupAdj, hab, if_true]
        exact ih.cons a
      · simp only [dedupAdj, hab, Bool.false_eq_true, if_false]
        exact ih.cons₂ a

theorem dedupAdj_nodup : ∀ l : List String, List.Sorted strLeP l → (dedupAdj l).Nodup := by
  intro l
  induction l with
  | nil => intro _; simp [dedupAdj]
  | cons a t ih =>
    intro hs
    cases t with
    | nil => simp [dedupAdj]
    | cons b rest =>
      by_cases hab : (a == b) = true
      · simp only [dedupAdj, hab, if_true]
        exact ih hs.of_cons
      · simp only [dedupAdj, hab, Bool.false_eq_true, if_false]
        refine List.Nodup.cons ?_ (ih hs.of_cons)
        intro hmem
        rw [mem_dedupAdj] at hmem
        have hne : a ≠ b := fun h => hab (beq_iff_eq.mpr h)
        rcases List.mem_cons.mp hmem with h | h
        · exact hne h
        · have hba : strLeP b a := List.rel_of_sorted_cons hs.of_cons a h
          have hab2 : strLeP a b := List.rel_of_sorted_cons hs b (List.mem_cons_self b rest)
          exact hne (strLeP_antisymm hab2 hba)

theorem dedupAdj_eq_self : ∀ l : List String, l.Nodup → dedupAdj l = l := by
  intro l
  induction l with
  | nil => intro _; rfl
  | cons a t ih =>
    intro hn
    cases t with
    | nil => rfl
    | cons b rest =>
      have hne : a ≠ b := by
        intro h
        subst h
        exact (List.nodup_cons.mp hn).1 (List.mem_cons_self a rest)
      have hab : (a == b) = false := beq_eq_false_iff_ne.mpr hne
      simp only [dedupAdj, hab, Bool.false_eq_true, if_false]
      rw [ih (List.nodup_cons.mp hn).2]

/-- Rust `Vec::sort` for `Vec<String>`. -/
def sortStrings (l : List String) : List String :=
  List.insertionSort strLeP l

/-- Rust `Vec::dedup` is `dedupAdj` above (drop consecutive repeats).
`sort`, `dedup` and `retain(pred)` in sequence, as `validate_config`
applies to each list. -/
def sortDedupRetain (p : String → Bool) (l : List String) : List String :=
  (dedupAdj (sortStrings l)).filter p

/-- The `pass_schemes`/`sandbox_schemes` pipeline of `validate_config`:
sort, dedup, retain only schemes the host knows. -/
def cleanSchemes (schemes : List String) (l : List String) : List String :=
  sortDedupRetain (fun s => schemes.contains s) l

/-- The `files`/`dirs`/`rofiles`/`rodirs` pipeline of `validate_config`:
sort, dedup, retain only entries whose scheme is sandboxed. -/
def cleanPaths (sandbox : List String) (l : List String) : List String :=
  sortDedupRetain (fun f => sandbox.any (fun s => strStartsWith f (s ++ ":"))) l

/-- `ContainError` from `src/lib.rs`. -/
inductive ContainError where
  | ParseError
  | ConfigError
  | IoError
  | SyscallError (errno : Nat)
  | PoisonError
  | ThreadError
deriving DecidableEq

/-- The root check of `validate_config` (lines 99-111): the chroot root,
when present, must start with `scheme:` for some post-filter sandboxed
scheme. -/
def rootBad (root : Option String) (sandbox : List String) : Bool :=
  match root with
  | some r => !(sandbox.any (fun s => strStartsWith r (s ++ ":")))
  | none => false

/-- The record `validate_config` returns on success. -/
def validatedConfig (schemes : List String) (config : ContainConfig) : ContainConfig :=
  let sandbox := cleanSchemes schemes config.sandbox_schemes
  { root := config.root
    pass_schemes := cleanSchemes schemes config.pass_schemes
    sandbox_schemes := sandbox
    files := cleanPaths sandbox config.files
    dirs := cleanPaths sandbox config.dirs
    rofiles := cleanPaths sandbox config.rofiles
    rodirs := cleanPaths sandbox config.rodirs }

/-- `validate_config` (`src/runner.rs` lines 77-148), with the host
scheme snapshot as the parameter `schemes`. -/
def validate_config (schemes : List String) (config : ContainConfig) :
    Except ContainError ContainConfig :=
  if rootBad config.root (cleanSchemes schemes config.sandbox_schemes) then
    Except.error ContainError.ConfigError
  else
    Except.ok (validatedConfig schemes config)

theorem sorted_sortStrings (l : List String) : List.Sorted strLeP (sortStrings l) :=
  List.sorted_insertionSort strLeP l

theorem sorted_sortDedupRetain (p : String → Bool) (l : List String) :
    List.Sorted strLeP (sortDedupRetain p l) :=
  ((sorted_sortStrings l).sublist (dedupAdj_sublist _)).sublist (List.filter_sublist _)

theorem nodup_sortDedupRetain (p : String → Bool) (l : List String) :
    (sortDedupRetain p l).Nodup :=
  (dedupAdj_nodup _ (sorted_sortStrings l)).filter p

theorem mem_sortDedupRetain (p : String → Bool) (l : List String) (x : String)
    (h : x ∈ sortDedupRetain p l) : x ∈ l ∧ p x = true := by
  unfold sortDedupRetain at h
  rw [List.mem_filter] at h
  refine ⟨?_, h.2⟩
  have h2 := (mem_dedupAdj _ x).mp h.1
  unfold sortStrings at h2
  rw [List.mem_insertionSort] at h2
  exact h2

theorem sortDedupRetain_eq_self (p : String → Bool) (l : List String)
    (hs : List.Sorted strLeP l) (hn : l.Nodup) (hall : ∀ x ∈ l, p x = true) :
    sortDedupRetain p l = l := by
  unfold sortDedupRetain sortStrings
  rw [hs.insertionSort_eq, dedupAdj_eq_self l hn]
  exact List.filter_eq_self.mpr hall

theorem sortDedupRetain_idem (p : String → Bool) (l : List String) :
    sortDedupRetain p (sortDedupRetain p l) = sortDedupRetain p l :=
  sortDedupRetain_eq_self p _ (sorted_sortDedupRetain p l) (nodup_sortDedupRetain p l)
    (fun x hx => by
      unfold sortDedupRetain at hx
      exact (List.mem_filter.mp hx).2)

theorem cleanSchemes_idem (schemes l : List String) :
    cleanSchemes schemes (cleanSchemes schemes l) = cleanSchemes schemes l :=
  sortDedupRetain_idem _ l

theorem cleanPaths_idem (sandbox l : List String) :
    cleanPaths sandbox (cleanPaths sandbox l) = cleanPaths sandbox l :=
  sortDedupRetain_idem _ l

theorem validate_config_ok_iff (schemes : List String) (config v : ContainConfig) :
    validate_config schemes config = Except.ok v ↔
      rootBad config.root (cleanSchemes schemes config.sandbox_schemes) = false
      ∧ v = validatedConfig schemes config := by
  unfold validate_config
  rcases h : rootBad config.root (cleanSchemes schemes config.sandbox_schemes) <;>
    simp [eq_comm]

/-- C6: whenever `validate_config` succeeds, every element of `files`,
`dirs`, `rofiles`, `rodirs` starts with `s:` for some `s` among the
validated `sandbox_schemes`, and `pass_schemes` and `sandbox_schemes`
are each sorted, duplicate-free and drawn from the host snapshot. -/
theorem c6_validate_invariants (schemes : List String) (config v : ContainConfig)
    (h : validate_config schemes config = Except.ok v) :
    (∀ f ∈ v.files, ∃ s ∈ v.sandbox_schemes, strStartsWith f (s ++ ":") = true)
    ∧ (∀ d ∈ v.dirs, ∃ s ∈ v.sandbox_schemes, strStartsWith d (s ++ ":") = true)
    ∧ (∀ f ∈ v.rofiles, ∃ s ∈ v.sandbox_schemes, strStartsWith f (s ++ ":") = true)
    ∧ (∀ d ∈ v.rodirs, ∃ s ∈ v.sandbox_schemes, strStartsWith d (s ++ ":") = true)
    ∧ List.Sorted strLeP v.pass_schemes
    ∧ v.pass_schemes.Nodup
    ∧ (∀ s ∈ v.pass_schemes, s ∈ schemes)
    ∧ List.Sorted strLeP v.sandbox_schemes
    ∧ v.sandbox_schemes.Nodup
    ∧ (∀ s ∈ v.sandbox_schemes, s ∈ schemes) := by
  rcases (validate_config_ok_iff schemes config v).mp h with ⟨_, hv⟩
  subst hv
  refine ⟨?_, ?_, ?_, ?_,
    sorted_sortDedupRetain _ _, nodup_sortDedupRetain _ _, ?_,
    sorted_sortDedupRetain _ _, nodup_sortDedupRetain _ _, ?_⟩
  · intro f hf
    have h2 := mem_sortDedupRetain _ _ f hf
    exact List.any_eq_true.mp h2.2
  · intro d hd
    have h2 := mem_sortDedupRetain _ _ d hd
    exact List.any_eq_true.mp h2.2
  · intro f hf
    have h2 := mem_sortDedupRetain _ _ f hf
    exact List.any_eq_true.mp h2.2
  · intro d hd
    have h2 := mem_sortDedupRetain _ _ d hd
    exact List.any_eq_true.mp h2.2
  · intro x hx
    have h2 := mem_sortDedupRetain _ _ x hx
    simpa using h2.2
  · intro x hx
    have h2 := mem_sortDedupRetain _ _ x hx
    simpa using h2.2

theorem c6_validate_invariants_witness :
    validate_config ["file", "rand", "null"]
        ⟨none, ["rand", "rand", "zzz"], ["file"], ["file:/a", "net:/b"],
          ["file:/bin"], [], []⟩
      = Except.ok ⟨none, ["rand"], ["file"], ["file:/a"], ["file:/bin"], [], []⟩
    ∧ ((∀ f ∈ (⟨none, ["rand"], ["file"], ["file:/a"], ["file:/bin"], [], []⟩
          : ContainConfig).files,
        ∃ s ∈ (⟨none, ["rand"], ["file"], ["file:/a"], ["file:/bin"], [], []⟩
          : ContainConfig).sandbox_schemes, strStartsWith f (s ++ ":") = true)
      ∧ (∀ d ∈ (⟨none, ["rand"], ["file"], ["file:/a"], ["file:/bin"], [], []⟩
          : ContainConfig).dirs,
        ∃ s ∈ (⟨none, ["rand"], ["file"], ["file:/a"], ["file:/bin"], [], []⟩
          : ContainConfig).sandbox_schemes, strStartsWith d (s ++ ":") = true)
      ∧ (∀ f ∈ (⟨none, ["rand"], ["file"], ["file:/a"], ["file:/bin"], [], []⟩
          : ContainConfig).rofiles,
        ∃ s ∈ (⟨none, ["rand"], ["file"], ["file:/a"], ["file:/bin"], [], []⟩
          : ContainConfig).sandbox_schemes, strStartsWith f (s ++ ":") = true)
      ∧ (∀ d ∈ (⟨none, ["rand"], ["file"], ["file:/a"], ["file:/bin"], [], []⟩
          : ContainConfig).rodirs,
        ∃ s ∈ (⟨none, ["rand"], ["file"], ["file:/a"], ["file:/bin"], [], []⟩
          : ContainConfig).sandbox_schemes, strStartsWith d (s ++ ":") = true)
      ∧ List.Sorted strLeP (["rand"] : List String)
      ∧ (["rand"] : List String).Nodup
      ∧ (∀ s ∈ (["rand"] : List String), s ∈ (["file", "rand", "null"] : List String))
      ∧ List.Sorted strLeP (["file"] : List String)
      ∧ (["file"] : List String).Nodup
      ∧ (∀ s ∈ (["file"] : List String), s ∈ (["file", "rand", "null"] : List String))) :=
  ⟨by decide,
   c6_validate_invariants ["file", "rand", "null"]
     ⟨none, ["rand", "rand", "zzz"], ["file"], ["file:/a", "net:/b"], ["file:/bin"], [], []⟩
     ⟨none, ["rand"], ["file"], ["file:/a"], ["file:/bin"], [], []⟩ (by decide)⟩

theorem rootBad_true_iff (root : Option String) (sandbox : List String) :
    rootBad root sandbox = true ↔
      ∃ r, root = some r ∧ ∀ s ∈ sandbox, strStartsWith r (s ++ ":") = false := by
  cases root with
  | none => simp [rootBad]
  | some r =>
    simp only [rootBad, Bool.not_eq_true', Option.some.injEq]
    rw [List.any_eq_false]
    constructor
    · intro h
      exact ⟨r, rfl, fun s hs => Bool.not_eq_true _ |>.mp (h s hs)⟩
    · rintro ⟨r2, hr2, h⟩
      subst hr2
      intro s hs
      rw [h s hs]
      simp

/-- C7: validation fails with `ConfigError` exactly when a chroot root is
configured whose scheme is not among the post-filter `sandbox_schemes`
(the check is `root.starts_with("scheme:")`); no other error is produced
by the scheme check and the dir/file filtering steps. -/
theorem c7_root_scheme_check (schemes : List String) (config : ContainConfig) :
    (validate_config schemes config = Except.error ContainError.ConfigError
      ↔ ∃ r, config.root = some r ∧
          ∀ s ∈ cleanSchemes schemes config.sandbox_schemes,
            strStartsWith r (s ++ ":") = false)
    ∧ (∀ e, validate_config schemes config = Except.error e →
        e = ContainError.ConfigError) := by
  unfold validate_config
  rcases hb : rootBad config.root (cleanSchemes schemes config.sandbox_schemes)
  · constructor
    · rw [← rootBad_true_iff, hb]
      simp
    · intro e he
      exact absurd he (by simp)
  · constructor
    · rw [← rootBad_true_iff, hb]
      simp
    · intro e he
      simp only [if_pos rfl] at he
      injection he with he2
      exact he2.symm

theorem c7_root_scheme_check_witness :
    validate_config ["file"] ⟨some "net:/jail", [], ["file"], [], [], [], []⟩
      = Except.error ContainError.ConfigError :=
  (c7_root_scheme_check ["file"] ⟨some "net:/jail", [], ["file"], [], [], [], []⟩).1.mpr
    ⟨"net:/jail", rfl, by decide⟩

theorem validatedConfig_idem (schemes : List String) (config : ContainConfig) :
    validatedConfig schemes (validatedConfig schemes config) = validatedConfig schemes config := by
  simp [validatedConfig, cleanSchemes_idem, cleanPaths_idem]

/-- C8: validation is idempotent — re-validating a validated config under
the same host snapshot succeeds and returns it unchanged. -/
theorem c8_validate_idempotent (schemes : List String) (config v : ContainConfig)
    (h : validate_config schemes config = Except.ok v) :
    validate_config schemes v = Except.ok v := by
  rcases (validate_config_ok_iff schemes config v).mp h with ⟨hrb, hv⟩
  subst hv
  rw [validate_config_ok_iff]
  constructor
  · show rootBad config.root
      (cleanSchemes schemes (cleanSchemes schemes config.sandbox_schemes)) = false
    rw [cleanSchemes_idem]
    exact hrb
  · exact (validatedConfig_idem schemes config).symm

theorem c8_validate_idempotent_witness :
    validate_config ["file", "rand"]
        ⟨none, ["rand", "rand"], ["file"], ["net:/b", "file:/a"], [], [], []⟩
      = Except.ok ⟨none, ["rand"], ["file"], ["file:/a"], [], [], []⟩
    ∧ validate_config ["file", "rand"] ⟨none, ["rand"], ["file"], ["file:/a"], [], [], []⟩
      = Except.ok ⟨none, ["rand"], ["file"], ["file:/a"], [], [], []⟩ :=
  ⟨by decide,
   c8_validate_idempotent ["file", "rand"]
     ⟨none, ["rand", "rand"], ["file"], ["net:/b", "file:/a"], [], [], []⟩
     ⟨none, ["rand"], ["file"], ["file:/a"], [], [], []⟩ (by decide)⟩

/-! The Filter Scheme Server request handlers (`impl Scheme for
FilterScheme`, `src/filterscheme.rs` lines 126-219).  The handlers
interleave credential syscalls with the resolver and one host filesystem
operation; the model records the host calls in order as a trace, and
abstracts each syscall outcome through an oracle.  `fsResult` abstracts
the combined `resolve` + host operation (open/rmdir/unlink) outcome.
A handler result of `none` means the process aborted (a Rust `unwrap`
panic); `some r` means the handler returned `r`. -/

inductive SysEvent where
  | setregid (rgid egid : Nat)
  | setreuid (ruid euid : Nat)
  | hostOp
deriving DecidableEq

structure SyscallOracle where
  setregidResult : Nat → Nat → Except Nat Unit
  setreuidResult : Nat → Nat → Except Nat Unit

/-- The credential-switch prologue shared by xopen, rmdir and unlink:
switch effective gid (when the caller's gid is nonzero), then effective
uid (when nonzero); when the uid switch fails, the gid is restored
best-effort and the error returned. -/
def credSwitch (o : SyscallOracle) (uid gid : Nat) : List SysEvent × Except Nat Unit :=
  if gid ≠ 0 then
    match o.setregidResult 0 gid with
    | Except.error e => ([SysEvent.setregid 0 gid], Except.error e)
    | Except.ok _ =>
      if uid ≠ 0 then
        match o.setreuidResult 0 uid with
        | Except.error e =>
          ([SysEvent.setregid 0 gid, SysEvent.setreuid 0 uid, SysEvent.setregid 0 0],
            Except.error e)
        | Except.ok _ =>
          ([SysEvent.setregid 0 gid, SysEvent.setreuid 0 uid], Except.ok ())
      else ([SysEvent.setregid 0 gid], Except.ok ())
  else
    if uid ≠ 0 then
      match o.setreuidResult 0 uid with
      | Except.error e => ([SysEvent.setreuid 0 uid], Except.error e)
      | Except.ok _ => ([SysEvent.setreuid 0 uid], Except.ok ())
    else ([], Except.ok ())

/-- `FilterScheme::xopen` (lines 127-159): credential switch, the
resolver and host open, then the restores — written `let _ = ...` in the
source, so their outcomes are discarded and the handler always returns. -/
def xopenModel (o : SyscallOracle) (uid gid : Nat) (fsResult : Except Nat Unit) :
    List SysEvent × Option (Except Nat Unit) :=
  match credSwitch o uid gid with
  | (t, Except.error e) => (t, some (Except.error e))
  | (t, Except.ok _) =>
    let t1 := t ++ [SysEvent.hostOp]
    let t2 := if uid ≠ 0 then t1 ++ [SysEvent.setreuid 0 0] else t1
    let t3 := if gid ≠ 0 then t2 ++ [SysEvent.setregid 0 0] else t2
    (t3, some fsResult)

/-- The restore epilogue of rmdir and unlink (lines 182-187 and
212-217): `setreuid(0, 0).unwrap()` then `setregid(0, 0).unwrap()` — a
failed restore aborts the process. -/
def restoreUnwrap (o : SyscallOracle) (uid gid : Nat) (t : List SysEvent)
    (res : Except Nat Unit) : List SysEvent × Option (Except Nat Unit) :=
  if uid ≠ 0 then
    match o.setreuidResult 0 0 with
    | Except.error _ => (t ++ [SysEvent.setreuid 0 0], none)
    | Except.ok _ =>
      if gid ≠ 0 then
        match o.setregidResult 0 0 with
        | Except.error _ => (t ++ [SysEvent.setreuid 0 0, SysEvent.setregid 0 0], none)
        | Except.ok _ =>
          (t ++ [SysEvent.setreuid 0 0, SysEvent.setregid 0 0], some res)
      else (t ++ [SysEvent.setreuid 0 0], some res)
  else
    if gid ≠ 0 then
      match o.setregidResult 0 0 with
      | Except.error _ => (t ++ [SysEvent.setregid 0 0], none)
      | Except.ok _ => (t ++ [SysEvent.setregid 0 0], some res)
    else (t, some res)

/-- `FilterScheme::rmdir` (lines 161-189). -/
def rmdirModel (o : SyscallOracle) (uid gid : Nat) (fsResult : Except Nat Unit) :
    List SysEvent × Option (Except Nat Unit) :=
  match credSwitch o uid gid with
  | (t, Except.error e) => (t, some (Except.error e))
  | (t, Except.ok _) => restoreUnwrap o uid gid (t ++ [SysEvent.hostOp]) fsResult

/-- `FilterScheme::unlink` (lines 191-219); the control flow is
identical to rmdir's. -/
def unlinkModel (o : SyscallOracle) (uid gid : Nat) (fsResult : Except Nat Unit) :
    List SysEvent × Option (Except Nat Unit) :=
  match credSwitch o uid gid with
  | (t, Except.error e) => (t, some (Except.error e))
  | (t, Except.ok _) => restoreUnwrap o uid gid (t ++ [SysEvent.hostOp]) fsResult

/-- An oracle whose only failing call is the euid restore
`setreuid(0, 0)`. -/
def failRestoreOracle : SyscallOracle :=
  ⟨fun _ _ => Except.ok (),
   fun _ e => if e = 0 then Except.error EPERM else Except.ok ()⟩

/-- An oracle on which every credential call succeeds. -/
def okOracle : SyscallOracle :=
  ⟨fun _ _ => Except.ok (), fun _ _ => Except.ok ()⟩

/-- C4 is refuted as stated: when the euid restore `setreuid(0, 0)`
fails, `xopen` (whose restores are `let _ = ...`) still returns its
result normally — the process does not abort — while `rmdir` on the same
oracle aborts (its restore is `unwrap`ed). -/
theorem c4_restore_not_fatal_in_xopen :
    failRestoreOracle.setreuidResult 0 0 = Except.error EPERM
    ∧ (xopenModel failRestoreOracle 1 1 (Except.ok ())).2 = some (Except.ok ())
    ∧ (rmdirModel failRestoreOracle 1 1 (Except.ok ())).2 = none := by
  decide

/-- The credential-switch events a handler performs for a caller with
the given uid/gid: gid first, then uid; a zero id is not switched. -/
def switchEvts (uid gid : Nat) : List SysEvent :=
  (if gid ≠ 0 then [SysEvent.setregid 0 gid] else [])
  ++ (if uid ≠ 0 then [SysEvent.setreuid 0 uid] else [])

/-- The restore events: euid back to 0 first, then egid; a zero id needs
no restore. -/
def restoreEvts (uid gid : Nat) : List SysEvent :=
  (if uid ≠ 0 then [SysEvent.setreuid 0 0] else [])
  ++ (if gid ≠ 0 then [SysEvent.setregid 0 0] else [])

theorem credSwitch_ok (o : SyscallOracle) (uid gid : Nat)
    (hgs : gid ≠ 0 → o.setregidResult 0 gid = Except.ok ())
    (hus : uid ≠ 0 → o.setreuidResult 0 uid = Except.ok ()) :
    credSwitch o uid gid = (switchEvts uid gid, Except.ok ()) := by
  unfold credSwitch switchEvts
  by_cases hg : gid ≠ 0
  · by_cases hu : uid ≠ 0
    · simp [hg, hu, hgs hg, hus hu]
    · simp [hg, hu, hgs hg]
  · by_cases hu : uid ≠ 0
    · simp [hg, hu, hus hu]
    · simp [hg, hu]

theorem credSwitch_uid_fail (o : SyscallOracle) (uid gid e : Nat) (hu : uid ≠ 0)
    (hgs : gid ≠ 0 → o.setregidResult 0 gid = Except.ok ())
    (huf : o.setreuidResult 0 uid = Except.error e) :
    credSwitch o uid gid =
      ((if gid ≠ 0 then [SysEvent.setregid 0 gid] else [])
        ++ SysEvent.setreuid 0 uid
          :: (if gid ≠ 0 then [SysEvent.setregid 0 0] else []),
        Except.error e) := by
  unfold credSwitch
  by_cases hg : gid ≠ 0
  · simp [hg, hu, hgs hg, huf]
  · simp [hg, hu, huf]

theorem restoreUnwrap_ok (o : SyscallOracle) (uid gid : Nat) (t : List SysEvent)
    (res : Except Nat Unit)
    (hur : uid ≠ 0 → o.setreuidResult 0 0 = Except.ok ())
    (hgr : gid ≠ 0 → o.setregidResult 0 0 = Except.ok ()) :
    restoreUnwrap o uid gid t res = (t ++ restoreEvts uid gid, some res) := by
  unfold restoreUnwrap restoreEvts
  by_cases hu : uid ≠ 0
  · by_cases hg : gid ≠ 0
    · simp [hu, hg, hur hu, hgr hg]
    · simp [hu, hg, hur hu]
  · by_cases hg : gid ≠ 0
    · simp [hu, hg, hgr hg]
    · simp [hu, hg]

theorem restoreUnwrap_uid_fail (o : SyscallOracle) (uid gid e : Nat)
    (t : List SysEvent) (res : Except Nat Unit) (hu : uid ≠ 0)
    (huf : o.setreuidResult 0 0 = Except.error e) :
    restoreUnwrap o uid gid t res = (t ++ [SysEvent.setreuid 0 0], none) := by
  unfold restoreUnwrap
  simp [hu, huf]

theorem restoreUnwrap_gid_fail (o : SyscallOracle) (uid gid e : Nat)
    (t : List SysEvent) (res : Except Nat Unit) (hg : gid ≠ 0)
    (hur : uid ≠ 0 → o.setreuidResult 0 0 = Except.ok ())
    (hgf : o.setregidResult 0 0 = Except.error e) :
    restoreUnwrap o uid gid t res =
      (t ++ (if uid ≠ 0 then [SysEvent.setreuid 0 0] else [])
          ++ [SysEvent.setregid 0 0], none) := by
  unfold restoreUnwrap
  by_cases hu : uid ≠ 0
  · simp [hu, hg, hur hu, hgf]
  · simp [hu, hg, hgf]

theorem xopen_of_credSwitch_ok (o : SyscallOracle) (uid gid : Nat)
    (fsResult : Except Nat Unit) (t : List SysEvent)
    (h : credSwitch o uid gid = (t, Except.ok ())) :
    xopenModel o uid gid fsResult =
      (t ++ SysEvent.hostOp :: restoreEvts uid gid, some fsResult) := by
  unfold xopenModel restoreEvts
  rw [h]
  by_cases hu : uid ≠ 0
  · by_cases hg : gid ≠ 0
    · simp [hu, hg]
    · simp [hu, hg]
  · by_cases hg : gid ≠ 0
    · simp [hu, hg]
    · simp [hu, hg]

/-- C4 (amended): for every caller — in particular whenever gid or uid
(or both) is nonzero — all three handlers switch effective gid (when the
caller's gid is nonzero) and then effective uid (when nonzero) before
the host operation, and attempt the applicable restores (euid to 0, then
egid to 0) on every exit path — success, resolver denial and host error
alike (`fsResult` is arbitrary) — and the failed-uid-switch path
restores the gid it switched; but only rmdir and unlink treat a failed
restore as fatal to the process, while xopen discards restore failures
and always returns. -/
theorem c4_credential_switching (o : SyscallOracle) (uid gid : Nat)
    (fsResult : Except Nat Unit) :
    ((gid ≠ 0 → o.setregidResult 0 gid = Except.ok ()) →
     (uid ≠ 0 → o.setreuidResult 0 uid = Except.ok ()) →
      xopenModel o uid gid fsResult =
        (switchEvts uid gid ++ SysEvent.hostOp :: restoreEvts uid gid, some fsResult))
    ∧ (∀ e, uid ≠ 0 →
        (gid ≠ 0 → o.setregidResult 0 gid = Except.ok ()) →
        o.setreuidResult 0 uid = Except.error e →
      xopenModel o uid gid fsResult =
        ((if gid ≠ 0 then [SysEvent.setregid 0 gid] else [])
          ++ SysEvent.setreuid 0 uid
            :: (if gid ≠ 0 then [SysEvent.setregid 0 0] else []),
          some (Except.error e)))
    ∧ (xopenModel o uid gid fsResult).2 ≠ none
    ∧ (∀ e2, uid ≠ 0 →
        (gid ≠ 0 → o.setregidResult 0 gid = Except.ok ()) →
        o.setreuidResult 0 uid = Except.ok () →
        o.setreuidResult 0 0 = Except.error e2 →
      rmdirModel o uid gid fsResult =
        (switchEvts uid gid ++ [SysEvent.hostOp, SysEvent.setreuid 0 0], none)
      ∧ unlinkModel o uid gid fsResult =
        (switchEvts uid gid ++ [SysEvent.hostOp, SysEvent.setreuid 0 0], none))
    ∧ (∀ e3, gid ≠ 0 →
        o.setregidResult 0 gid = Except.ok () →
        (uid ≠ 0 → o.setreuidResult 0 uid = Except.ok ()) →
        (uid ≠ 0 → o.setreuidResult 0 0 = Except.ok ()) →
        o.setregidResult 0 0 = Except.error e3 →
      rmdirModel o uid gid fsResult =
        (switchEvts uid gid ++ SysEvent.hostOp
          :: ((if uid ≠ 0 then [SysEvent.setreuid 0 0] else [])
            ++ [SysEvent.setregid 0 0]), none)
      ∧ unlinkModel o uid gid fsResult =
        (switchEvts uid gid ++ SysEvent.hostOp
          :: ((if uid ≠ 0 then [SysEvent.setreuid 0 0] else [])
            ++ [SysEvent.setregid 0 0]), none))
    ∧ ((gid ≠ 0 → o.setregidResult 0 gid = Except.ok ()) →
       (uid ≠ 0 → o.setreuidResult 0 uid = Except.ok ()) →
       (uid ≠ 0 → o.setreuidResult 0 0 = Except.ok ()) →
       (gid ≠ 0 → o.setregidResult 0 0 = Except.ok ()) →
      rmdirModel o uid gid fsResult =
        (switchEvts uid gid ++ SysEvent.hostOp :: restoreEvts uid gid, some fsResult)
      ∧ unlinkModel o uid gid fsResult =
        (switchEvts uid gid ++ SysEvent.hostOp :: restoreEvts uid gid, some fsResult)) := by
  refine ⟨?_, ?_, ?_, ?_, ?_, ?_⟩
  · intro hgs hus
    exact xopen_of_credSwitch_ok o uid gid fsResult _ (credSwitch_ok o uid gid hgs hus)
  · intro e hu hgs huf
    unfold xopenModel
    rw [credSwitch_uid_fail o uid gid e hu hgs huf]
  · unfold xopenModel
    rcases hc : credSwitch o uid gid with ⟨t, r⟩
    rcases r <;> simp
  · intro e2 hu hgs hus huf
    have hcs := credSwitch_ok o uid gid hgs (fun _ => hus)
    have hre := restoreUnwrap_uid_fail o uid gid e2
      (switchEvts uid gid ++ [SysEvent.hostOp]) fsResult hu huf
    constructor
    · unfold rmdirModel
      rw [hcs]
      simp [hre]
    · unfold unlinkModel
      rw [hcs]
      simp [hre]
  · intro e3 hg hgs hus hur hgf
    have hcs := credSwitch_ok o uid gid (fun _ => hgs) hus
    have hre := restoreUnwrap_gid_fail o uid gid e3
      (switchEvts uid gid ++ [SysEvent.hostOp]) fsResult hg hur hgf
    constructor
    · unfold rmdirModel
      rw [hcs]
      simp [hre]
    · unfold unlinkModel
      rw [hcs]
      simp [hre]
  · intro hgs hus hur hgr
    have hcs := credSwitch_ok o uid gid hgs hus
    have hre := restoreUnwrap_ok o uid gid
      (switchEvts uid gid ++ [SysEvent.hostOp]) fsResult hur hgr
    constructor
    · unfold rmdirModel
      rw [hcs]
      simp [hre]
    · unfold unlinkModel
      rw [hcs]
      simp [hre]

theorem c4_credential_switching_witness :
    xopenModel okOracle 1 0 (Except.error EPERM) =
      ([SysEvent.setreuid 0 1, SysEvent.hostOp, SysEvent.setreuid 0 0],
        some (Except.error EPERM))
    ∧ rmdirModel failRestoreOracle 1 0 (Except.ok ()) =
      ([SysEvent.setreuid 0 1, SysEvent.hostOp, SysEvent.setreuid 0 0], none) :=
  ⟨(c4_credential_switching okOracle 1 0 (Except.error EPERM)).1
      (fun h => absurd rfl h) (fun _ => rfl),
   ((c4_credential_switching failRestoreOracle 1 0 (Except.ok ())).2.2.2.1 EPERM
      (by decide) (fun h => absurd rfl h) rfl rfl).1⟩

/-! The runner (`run_in_namespace`, `src/runner.rs` lines 152-196).
`fork`, `setrens`, `exec` and `waitpid` are host primitives; their
outcomes enter the model as parameters. -/

/-- `CONTAIN_EXEC_FAIL_EXIT` from `src/lib.rs` line 17. -/
def CONTAIN_EXEC_FAIL_EXIT : Nat := 13

/-- The parent's zombie-reaping loop (lines 177-188): repeatedly call
non-blocking `waitpid(0, WNOHANG)` until it reports pid 0 (an error is
logged and treated as 0, breaking the loop).  The successive host
answers enter the model as `zombies`; the result is the reaped pids. -/
def reapZombies : List Nat → List Nat
  | [] => []
  | p :: rest => if p = 0 then [] else p :: reapZombies rest

/-- `run_in_namespace`, parent side: `fork` (`none` models a -1 return),
then a blocking `waitpid` on the child (error or raw status word), then
the reap loop; the raw status word is returned unshifted. -/
def run_in_namespace (forkResult : Option Nat) (waitResult : Except Nat Nat)
    (zombies : List Nat) : Except ContainError Nat × List Nat :=
  match forkResult with
  | none => (Except.error ContainError.IoError, [])
  | some _pid =>
    match waitResult with
    | Except.error e => (Except.error (ContainError.SyscallError e), [])
    | Except.ok status => (Except.ok status, reapZombies zombies)

inductive ChildOutcome where
  | execed
  | exited (code : Nat)
  | errored (e : ContainError)
deriving DecidableEq

/-- `run_in_namespace`, child side (lines 160-169): enter the namespace
(`setrens`), then exec; `Command::exec` returns only on failure, upon
which the child exits with the sentinel code. -/
def childAfterFork (setrensResult : Except Nat Unit) (execOk : Bool) : ChildOutcome :=
  match setrensResult with
  | Except.error e => ChildOutcome.errored (ContainError.SyscallError e)
  | Except.ok _ =>
    if execOk then ChildOutcome.execed
    else ChildOutcome.exited CONTAIN_EXEC_FAIL_EXIT

theorem reapZombies_eq_takeWhile (l : List Nat) :
    reapZombies l = l.takeWhile (fun p => p != 0) := by
  induction l with
  | nil => rfl
  | cons p rest ih =>
    by_cases hp : p = 0
    · subst hp
      simp [reapZombies, List.takeWhile_cons]
    · simp [reapZombies, List.takeWhile_cons, hp, ih]

/-- C9: fork failure surfaces as `IoError`; on a successful fork and
wait the parent returns the child's raw wait-status word unchanged (not
shifted — e.g. status `13 <<< 8 = 3328` is returned as `3328`, not `13`)
after reaping further zombies non-blockingly until `waitpid` reports pid
0; and a child whose exec fails exits with the sentinel
`CONTAIN_EXEC_FAIL_EXIT = 13`. -/
theorem c9_run_in_namespace (pid status : Nat) (zombies : List Nat)
    (w : Except Nat Nat) :
    run_in_namespace none w zombies = (Except.error ContainError.IoError, [])
    ∧ run_in_namespace (some pid) (Except.ok status) zombies
        = (Except.ok status, reapZombies zombies)
    ∧ reapZombies zombies = zombies.takeWhile (fun p => p != 0)
    ∧ run_in_namespace (some pid) (Except.ok (CONTAIN_EXEC_FAIL_EXIT <<< 8)) []
        = (Except.ok 3328, [])
    ∧ (3328 : Nat) ≠ CONTAIN_EXEC_FAIL_EXIT
    ∧ childAfterFork (Except.ok ()) false = ChildOutcome.exited CONTAIN_EXEC_FAIL_EXIT
    ∧ CONTAIN_EXEC_FAIL_EXIT = 13 :=
  ⟨rfl, rfl, reapZombies_eq_takeWhile zombies, rfl, by decide, rfl, rfl⟩

/-! The supervisor handle teardown (`impl Drop for ContainThread`,
`src/contain_thread.rs` lines 232-240). -/

inductive DropAction where
  | writeBytes (fd : Nat) (msg : String)
  | joinThread
deriving DecidableEq

/-- `impl Drop for ContainThread`: the destructor's entire effect is one
write of the bytes `"shutdown scheme"` to the shutdown pipe.  The
`thread_handle : JoinHandle<()>` field is dropped without `join` being
called (dropping a `JoinHandle` detaches the thread). -/
def containThreadDrop (shutdown_pipe : Nat) : List DropAction :=
  [DropAction.writeBytes shutdown_pipe "shutdown scheme"]

/-- C10 is refuted as stated: the destructor writes to the self-pipe but
performs no join of the worker thread. -/
theorem c10_drop_does_not_join :
    DropAction.writeBytes 3 "shutdown scheme" ∈ containThreadDrop 3
    ∧ DropAction.joinThread ∉ containThreadDrop 3 := by
  decide

/-- C10 (amended): dropping the `ContainThread` writes byte(s) to the
self-pipe shutdown channel and does nothing else — in particular it does
not join the worker thread, so the worker may still be running when
`drop` returns; descriptor cleanup happens inside the worker, not in
the destructor. -/
theorem c10_drop_signals_shutdown (fd : Nat) :
    containThreadDrop fd = [DropAction.writeBytes fd "shutdown scheme"]
    ∧ DropAction.joinThread ∉ containThreadDrop fd := by
  refine ⟨rfl, ?_⟩
  simp [containThreadDrop]

end Contain
